import Mathlib

/-!
Verification of the interpolation engine (`src/interpolation.py`).

The module is embedded shallowly: numpy arrays become `List ℝ` (or lists of
lists for 2-D grids), IEEE-754 doubles that can carry NaN/±inf become the
`FVal` type below, and the engine's methods become Lean functions.  External
numerical backends (scipy's `Rbf` and `griddata`, PyKrige) are not code of
this repository; they enter the model as explicit function parameters or, for
the RBF solve, as an `Option` oracle whose `none` stands for "the solve raised
an internal exception".
-/

set_option maxHeartbeats 1000000

noncomputable section

open Classical

/-- An IEEE-754 double as the interpolation module sees it: NaN, the two
infinities, or a finite value modelled as a real number. -/
inductive FVal where
  | nan : FVal
  | inf : FVal
  | ninf : FVal
  | fin : ℝ → FVal

/-- `np.isnan`: true exactly on NaN (infinities are NOT NaN). -/
def FVal.isnan : FVal → Bool
  | .nan => true
  | _ => false

/-- `np.isfinite`: true exactly on finite values. -/
def FVal.isfinite : FVal → Bool
  | .fin _ => true
  | _ => false

/-- Projection of a float into the real-number model.  Non-finite values have
no real counterpart and are mapped to 0; no theorem below evaluates
interpolation arithmetic on a non-finite value that survived cleaning, so this
default is never load-bearing. -/
def FVal.toReal : FVal → ℝ
  | .fin x => x
  | _ => 0

/-- The base `METHODS` dict of `InterpolationEngine`, in source order. -/
def baseMETHODS : List (String × String) :=
  [("idw", "Inverse Distance Weighting"),
   ("linear", "Linear Interpolation"),
   ("cubic", "Cubic Interpolation"),
   ("nearest", "Nearest Neighbor"),
   ("rbf_multiquadric", "RBF (Multiquadric)"),
   ("rbf_gaussian", "RBF (Gaussian)"),
   ("rbf_thin_plate", "RBF (Thin Plate Spline)"),
   ("rbf_linear", "RBF (Linear)")]

/-- The `METHODS` registry after module initialization: the base dict, plus the
two kriging entries exactly when the optional PyKrige import succeeded.  The
registry is a pure function of that availability flag and is never written
afterwards. -/
def METHODS (krigingAvailable : Bool) : List (String × String) :=
  baseMETHODS ++
    (if krigingAvailable then
       [("kriging_ordinary", "Ordinary Kriging"),
        ("kriging_universal", "Universal Kriging")]
     else [])

/-- The engine's per-instance state set by `__init__`. -/
structure InterpolationEngine where
  method : String
  power : ℝ
  smoothing : ℝ
  variogram_model : String
  rbf_smooth : ℝ

/-- The `ValueError`s the engine can raise, tagged by site. -/
inductive EngineError where
  | unknownMethod : String → List String → EngineError
  | krigingUnavailable : EngineError
  | insufficientData : EngineError
  | unknownInterpMethod : String → EngineError

/-- `InterpolationEngine.__init__`: reject a method identifier missing from the
registry (the error names the identifier and carries the list of valid keys),
reject kriging methods when PyKrige is unavailable, and otherwise store the
keyword parameters with their defaults.  No numeric parameter is validated. -/
def engineInit (krigingAvailable : Bool) (method : String)
    (power smoothing : Option ℝ) (variogram_model : Option String)
    (rbf_smooth : Option ℝ) : Except EngineError InterpolationEngine :=
  if method ∉ (METHODS krigingAvailable).map Prod.fst then
    .error (.unknownMethod method ((METHODS krigingAvailable).map Prod.fst))
  else if method.startsWith "kriging" && !krigingAvailable then
    .error .krigingUnavailable
  else
    .ok { method := method
          power := power.getD 2.0
          smoothing := smoothing.getD 0.0
          variogram_model := variogram_model.getD "gaussian"
          rbf_smooth := rbf_smooth.getD 0 }

/-- `np.linspace a b num`: `num` evenly spaced values from `a` to `b`
inclusive (exact in real arithmetic). -/
def linspace (a b : ℝ) (num : ℕ) : List ℝ :=
  (List.range num).map (fun (i : ℕ) => a + (i : ℝ) * ((b - a) / ((num : ℝ) - 1)))

/-- `np.min` over a nonempty array (0 on the empty list, never used there). -/
def listMin : List ℝ → ℝ
  | [] => 0
  | a :: t => t.foldl min a

/-- `np.max` over a nonempty array (0 on the empty list, never used there). -/
def listMax : List ℝ → ℝ
  | [] => 0
  | a :: t => t.foldl max a

/-- The bounds computation of `interpolate` (lines 103-121): when no bounds
are supplied, the data bounding box padded by 5% of each axis extent on both
sides; otherwise the caller's `(min_x, min_y, max_x, max_y)` verbatim.
Returned as `(min_x, max_x, min_y, max_y)`. -/
def computeBounds (x y : List ℝ) (bounds : Option (ℝ × ℝ × ℝ × ℝ)) :
    ℝ × ℝ × ℝ × ℝ :=
  match bounds with
  | none =>
    let min_x := listMin x
    let max_x := listMax x
    let min_y := listMin y
    let max_y := listMax y
    let x_padding := (max_x - min_x) * 0.05
    let y_padding := (max_y - min_y) * 0.05
    (min_x - x_padding, max_x + x_padding, min_y - y_padding, max_y + y_padding)
  | some (min_x, min_y, max_x, max_y) => (min_x, max_x, min_y, max_y)

/-- Distance from grid point `(gx, gy)` to sample `q`, with the engine's
smoothing already added, exactly as `_idw` computes it. -/
def sampleDistance (smoothing gx gy : ℝ) (q : ℝ × ℝ × ℝ) : ℝ :=
  Real.sqrt ((q.1 - gx) ^ 2 + (q.2.1 - gy) ^ 2) + smoothing

/-- `np.argmin`: index of the first occurrence of the minimum. -/
def argmin : List ℝ → ℕ
  | [] => 0
  | [_] => 0
  | a :: b :: t => if a ≤ listMin (b :: t) then 0 else argmin (b :: t) + 1

/-- The body of `_idw`'s per-cell loop: distances (plus smoothing) to every
sample; if any is below `1e-10`, the value at `np.argmin` of the distances,
otherwise the weighted average with weights `1 / d ** power`. -/
def idwCell (power smoothing : ℝ) (samples : List (ℝ × ℝ × ℝ)) (gx gy : ℝ) : ℝ :=
  let distances := samples.map (sampleDistance smoothing gx gy)
  let zs := samples.map (fun q => q.2.2)
  if ∃ d ∈ distances, d < 1e-10 then
    zs.getD (argmin distances) 0
  else
    let weights := distances.map (fun d => 1.0 / d ^ power)
    (List.zipWith (fun w z => w * z) weights zs).sum / weights.sum

/-- `_idw`: `ZI[i][j]` is the cell estimate at `(xi[j], yi[i])`, matching the
row-major loops over the `np.meshgrid` output. -/
def idwGrid (power smoothing : ℝ) (samples : List (ℝ × ℝ × ℝ)) (xi yi : List ℝ) :
    List (List ℝ) :=
  yi.map (fun gy => xi.map (fun gx => idwCell power smoothing samples gx gy))

/-- `_rbf`: the scipy fit/evaluate is external, abstracted by `rbfResult`
(`some ZI` = it returned grid `ZI`; `none` = it raised).  On `none` the code
emits one warning and falls back to `self._idw` with the engine's own
parameters.  The second component counts emitted warnings. -/
def rbfWithFallback (e : InterpolationEngine) (rbfResult : Option (List (List ℝ)))
    (samples : List (ℝ × ℝ × ℝ)) (xi yi : List ℝ) : List (List ℝ) × ℕ :=
  match rbfResult with
  | some ZI => (ZI, 0)
  | none => (idwGrid e.power e.smoothing samples xi yi, 1)

/-- Minimum Euclidean distance from grid point `(gx, gy)` to the sample
points, as `cdist` + `min(axis=1)` compute it in `mask_extrapolation_regions`. -/
def minSampleDistance (sample_points : List (ℝ × ℝ)) (gx gy : ℝ) : ℝ :=
  listMin (sample_points.map (fun q => Real.sqrt ((gx - q.1) ^ 2 + (gy - q.2) ^ 2)))

/-- `mask_extrapolation_regions`: `np.where(min_distances < max_distance, ZI,
np.nan)` cell by cell.  Grid values are `Option ℝ` with `none` as the NaN
sentinel; the result is a fresh grid, the inputs are untouched. -/
def mask_extrapolation_regions (XI YI : List (List ℝ)) (ZI : List (List (Option ℝ)))
    (sample_points : List (ℝ × ℝ)) (max_distance : ℝ) : List (List (Option ℝ)) :=
  List.zipWith
    (fun xr (p : List ℝ × List (Option ℝ)) =>
      List.zipWith
        (fun gxy z =>
          if minSampleDistance sample_points gxy.1 gxy.2 < max_distance then z
          else none)
        (xr.zip p.1) p.2)
    XI (YI.zip ZI)

/-- The NaN cleaning of `interpolate` (lines 97-101): the mask is
`~(np.isnan x | np.isnan y | np.isnan z)`, applied to all three arrays at
once, so index `i` survives exactly when none of the three entries at `i` is
NaN.  The three arrays are modelled as one list of triples. -/
def cleanSamples (xyz : List (FVal × FVal × FVal)) : List (FVal × FVal × FVal) :=
  xyz.filter (fun t => !(t.1.isnan || t.2.1.isnan || t.2.2.isnan))

/-- `InterpolationEngine.interpolate`: raise on fewer than 3 input points,
drop NaN rows, compute bounds, build the grid axes with `np.linspace`, and
dispatch on the method string.  `krigingImpl`, `rbfOracle` and `griddataImpl`
stand for the external numerical backends (PyKrige, scipy `Rbf`, scipy
`griddata`), which are not code of this repository. -/
def interpolate (e : InterpolationEngine) (xyz : List (FVal × FVal × FVal))
    (grid_resolution : ℕ) (bounds : Option (ℝ × ℝ × ℝ × ℝ))
    (krigingImpl : List (ℝ × ℝ × ℝ) → List ℝ → List ℝ → List (List ℝ))
    (rbfOracle : Option (List (List ℝ)))
    (griddataImpl : String → List (ℝ × ℝ × ℝ) → List ℝ → List ℝ → List (List ℝ)) :
    Except EngineError (List ℝ × List ℝ × List (List ℝ)) :=
  if xyz.length < 3 then
    .error .insufficientData
  else
    let samples := (cleanSamples xyz).map
      (fun t => (t.1.toReal, t.2.1.toReal, t.2.2.toReal))
    let b := computeBounds (samples.map (fun q => q.1))
      (samples.map (fun q => q.2.1)) bounds
    let xi := linspace b.1 b.2.1 grid_resolution
    let yi := linspace b.2.2.1 b.2.2.2 grid_resolution
    if e.method = "idw" then
      .ok (xi, yi, idwGrid e.power e.smoothing samples xi yi)
    else if e.method.startsWith "kriging" then
      .ok (xi, yi, krigingImpl samples xi yi)
    else if e.method.startsWith "rbf" then
      .ok (xi, yi, (rbfWithFallback e rbfOracle samples xi yi).1)
    else if e.method = "linear" ∨ e.method = "cubic" ∨ e.method = "nearest" then
      .ok (xi, yi, griddataImpl e.method samples xi yi)
    else
      .error (.unknownInterpMethod e.method)

/-- Modelled from the spec's words for claim C1: the cell estimate is the
value of the nearest coincident sample (first by index order under ties) when
some distance is below `1e-10`, and otherwise the weighted average
`Σ(z_k * d_k ^ -p) / Σ(d_k ^ -p)`. -/
def specIdwEstimate (power smoothing : ℝ) (samples : List (ℝ × ℝ × ℝ))
    (gx gy : ℝ) : ℝ :=
  let distances := samples.map (sampleDistance smoothing gx gy)
  let zs := samples.map (fun q => q.2.2)
  if ∃ d ∈ distances, d < 1e-10 then
    zs.getD
      (distances.findIdx (fun d => decide (d < 1e-10 ∧ ∀ d' ∈ distances, d ≤ d'))) 0
  else
    (List.zipWith (fun d z => z * d ^ (-power)) distances zs).sum /
      (distances.map (fun d => d ^ (-power))).sum

/-- Modelled from the spec's words for claim C6: cleaning removes index `i`
when the entry at `i` is NaN or infinite in any of the three sequences. -/
def specCleanSamples (xyz : List (FVal × FVal × FVal)) : List (FVal × FVal × FVal) :=
  xyz.filter (fun t => t.1.isfinite && t.2.1.isfinite && t.2.2.isfinite)

/-- Modelled from the spec's words for claim C5: a cell becomes the sentinel
exactly when its minimum distance to the samples exceeds the threshold, and
keeps its original value otherwise. -/
def specMask (XI YI : List (List ℝ)) (ZI : List (List (Option ℝ)))
    (sample_points : List (ℝ × ℝ)) (max_distance : ℝ) : List (List (Option ℝ)) :=
  List.zipWith
    (fun xr (p : List ℝ × List (Option ℝ)) =>
      List.zipWith
        (fun gxy z =>
          if minSampleDistance sample_points gxy.1 gxy.2 > max_distance then none
          else z)
        (xr.zip p.1) p.2)
    XI (YI.zip ZI)

/-- Modelled from the spec's words for claim C9: the base method identifiers
of §4.5 (IDW, linear, cubic, nearest, and the four RBF kernels). -/
def specBaseIdentifiers : List String :=
  ["idw", "linear", "cubic", "nearest",
   "rbf_multiquadric", "rbf_gaussian", "rbf_thin_plate", "rbf_linear"]

/-- Modelled from the spec's words for claim C9: the two geostatistical
identifiers (ordinary and universal kriging). -/
def specKrigingIdentifiers : List String :=
  ["kriging_ordinary", "kriging_universal"]

/-! Helper lemmas about `listMin`, `listMax`, `argmin`, `linspace` and list
sums, used by several claim theorems below. -/

theorem foldl_min_min (l : List ℝ) :
    ∀ a b : ℝ, l.foldl min (min a b) = min a (l.foldl min b) := by
  induction l with
  | nil => intro a b; rfl
  | cons c t ih =>
    intro a b
    show t.foldl min (min (min a b) c) = min a (t.foldl min (min b c))
    rw [min_assoc, ih]

theorem foldl_max_max (l : List ℝ) :
    ∀ a b : ℝ, l.foldl max (max a b) = max a (l.foldl max b) := by
  induction l with
  | nil => intro a b; rfl
  | cons c t ih =>
    intro a b
    show t.foldl max (max (max a b) c) = max a (t.foldl max (max b c))
    rw [max_assoc, ih]

theorem listMin_cons (a b : ℝ) (t : List ℝ) :
    listMin (a :: b :: t) = min a (listMin (b :: t)) := by
  show t.foldl min (min a b) = min a (t.foldl min b)
  exact foldl_min_min t a b

theorem listMax_cons (a b : ℝ) (t : List ℝ) :
    listMax (a :: b :: t) = max a (listMax (b :: t)) := by
  show t.foldl max (max a b) = max a (t.foldl max b)
  exact foldl_max_max t a b

theorem listMin_le_mem (l : List ℝ) : ∀ x ∈ l, listMin l ≤ x := by
  induction l with
  | nil => simp
  | cons a t ih =>
    intro x hx
    cases t with
    | nil =>
      rcases List.mem_singleton.mp hx with rfl
      exact le_rfl
    | cons b t' =>
      rw [listMin_cons]
      rcases List.mem_cons.mp hx with rfl | h
      · exact min_le_left _ _
      · exact le_trans (min_le_right _ _) (ih x h)

theorem le_listMax_mem (l : List ℝ) : ∀ x ∈ l, x ≤ listMax l := by
  induction l with
  | nil => simp
  | cons a t ih =>
    intro x hx
    cases t with
    | nil =>
      rcases List.mem_singleton.mp hx with rfl
      exact le_rfl
    | cons b t' =>
      rw [listMax_cons]
      rcases List.mem_cons.mp hx with rfl | h
      · exact le_max_left _ _
      · exact le_trans (ih x h) (le_max_right _ _)

theorem listMin_mem (l : List ℝ) (h : l ≠ []) : listMin l ∈ l := by
  induction l with
  | nil => exact absurd rfl h
  | cons a t ih =>
    cases t with
    | nil => exact List.mem_singleton.mpr rfl
    | cons b t' =>
      rw [listMin_cons]
      rcases min_choice a (listMin (b :: t')) with he | he
      · rw [he]; exact List.mem_cons_self _ _
      · rw [he]; exact List.mem_cons_of_mem _ (ih (by simp))

theorem listMax_mem (l : List ℝ) (h : l ≠ []) : listMax l ∈ l := by
  induction l with
  | nil => exact absurd rfl h
  | cons a t ih =>
    cases t with
    | nil => exact List.mem_singleton.mpr rfl
    | cons b t' =>
      rw [listMax_cons]
      rcases max_choice a (listMax (b :: t')) with he | he
      · rw [he]; exact List.mem_cons_self _ _
      · rw [he]; exact List.mem_cons_of_mem _ (ih (by simp))

theorem listMin_eq_of_isLeast (l : List ℝ) (m : ℝ)
    (h : IsLeast {r : ℝ | r ∈ l} m) : listMin l = m := by
  have hne : l ≠ [] := by
    intro he
    rw [he] at h
    exact absurd h.1 (by simp)
  exact le_antisymm (listMin_le_mem l m h.1) (h.2 (listMin_mem l hne))

theorem listMax_eq_of_isGreatest (l : List ℝ) (m : ℝ)
    (h : IsGreatest {r : ℝ | r ∈ l} m) : listMax l = m := by
  have hne : l ≠ [] := by
    intro he
    rw [he] at h
    exact absurd h.1 (by simp)
  exact le_antisymm (h.2 (listMax_mem l hne)) (le_listMax_mem l m h.1)

theorem argmin_lt_length (l : List ℝ) (h : l ≠ []) : argmin l < l.length := by
  induction l with
  | nil => exact absurd rfl h
  | cons a t ih =>
    cases t with
    | nil => simp [argmin]
    | cons b t' =>
      simp only [argmin]
      split
      · simp
      · have := ih (by simp)
        simp only [List.length_cons] at this ⊢
        omega

theorem getD_argmin (l : List ℝ) (h : l ≠ []) :
    l.getD (argmin l) 0 = listMin l := by
  induction l with
  | nil => exact absurd rfl h
  | cons a t ih =>
    cases t with
    | nil => rfl
    | cons b t' =>
      rw [listMin_cons]
      simp only [argmin]
      split
      · next hle => exact (min_eq_left hle).symm
      · next hle =>
        push_neg at hle
        show (b :: t').getD (argmin (b :: t')) 0 = _
        rw [ih (by simp), min_eq_right hle.le]

theorem findIdx_congr (p q : ℝ → Bool) (l : List ℝ) (h : ∀ x ∈ l, p x = q x) :
    l.findIdx p = l.findIdx q := by
  induction l with
  | nil => rfl
  | cons a t ih =>
    rw [List.findIdx_cons, List.findIdx_cons, h a (List.mem_cons_self _ _),
      ih (fun x hx => h x (List.mem_cons_of_mem _ hx))]

theorem findIdx_le_listMin (l : List ℝ) (h : l ≠ []) :
    l.findIdx (fun d => decide (d ≤ listMin l)) = argmin l := by
  induction l with
  | nil => exact absurd rfl h
  | cons a t ih =>
    cases t with
    | nil =>
      simp [List.findIdx_cons, argmin, listMin]
    | cons b t' =>
      rw [listMin_cons]
      by_cases hle : a ≤ listMin (b :: t')
      · have h0 : a ≤ min a (listMin (b :: t')) := le_min le_rfl hle
        simp [List.findIdx_cons, h0, argmin, hle]
      · push_neg at hle
        rw [min_eq_right hle.le, List.findIdx_cons]
        have ha : (decide (a ≤ listMin (b :: t'))) = false := by
          simp [not_le.mpr hle]
        rw [ha]
        simp only [argmin, cond_false]
        rw [if_neg (not_le.mpr hle), ih (by simp)]

theorem zipWith_map_fuse {α β γ δ : Type} (f : β → γ → δ) (g : α → β) (h : α → γ)
    (l : List α) :
    List.zipWith f (l.map g) (l.map h) = l.map (fun a => f (g a) (h a)) := by
  induction l with
  | nil => rfl
  | cons a t ih => simp [ih]

theorem zipWith_congr_left {α β γ : Type} (f g : α → β → γ) (l : List α)
    (l' : List β) (h : ∀ x ∈ l, ∀ y, f x y = g x y) :
    List.zipWith f l l' = List.zipWith g l l' := by
  induction l generalizing l' with
  | nil => rfl
  | cons a t ih =>
    cases l' with
    | nil => rfl
    | cons b t' =>
      simp only [List.zipWith_cons_cons]
      rw [h a (List.mem_cons_self _ _), ih t' (fun x hx y => h x (List.mem_cons_of_mem _ hx) y)]

theorem map_congr_mem {α β : Type} (f g : α → β) (l : List α)
    (h : ∀ x ∈ l, f x = g x) : l.map f = l.map g :=
  List.map_congr_left h

theorem linspace_length (a b : ℝ) (n : ℕ) : (linspace a b n).length = n := by
  unfold linspace
  rw [List.length_map, List.length_range]

theorem linspace_sorted (a b : ℝ) (n : ℕ) (hn : 2 ≤ n) (hab : a < b) :
    List.Pairwise (· < ·) (linspace a b n) := by
  unfold linspace
  rw [List.pairwise_map]
  have hstep : 0 < (b - a) / ((n : ℝ) - 1) := by
    apply div_pos (by linarith)
    have : (2 : ℝ) ≤ (n : ℝ) := by exact_mod_cast hn
    linarith
  exact (List.pairwise_lt_range n).imp (fun {i j} hij => by
    have h1 : (i : ℝ) < (j : ℝ) := by exact_mod_cast hij
    have h2 := mul_lt_mul_of_pos_right h1 hstep
    linarith)

theorem weighted_sum_le {α : Type} (w z : α → ℝ) (M : ℝ) (l : List α)
    (hl : l ≠ []) (hw : ∀ q ∈ l, 0 < w q) (hz : ∀ q ∈ l, z q ≤ M) :
    (l.map (fun q => w q * z q)).sum / (l.map w).sum ≤ M := by
  have hden : 0 < (l.map w).sum := by
    apply List.sum_pos
    · intro x hx
      rcases List.mem_map.mp hx with ⟨q, hq, rfl⟩
      exact hw q hq
    · simpa using hl
  rw [div_le_iff₀ hden]
  calc (l.map (fun q => w q * z q)).sum
      ≤ (l.map (fun q => w q * M)).sum := by
        apply List.sum_le_sum
        intro q hq
        exact mul_le_mul_of_nonneg_left (hz q hq) (hw q hq).le
    _ = M * (l.map w).sum := by
        rw [List.sum_map_mul_right]
        exact mul_comm _ _

theorem le_weighted_sum {α : Type} (w z : α → ℝ) (m : ℝ) (l : List α)
    (hl : l ≠ []) (hw : ∀ q ∈ l, 0 < w q) (hz : ∀ q ∈ l, m ≤ z q) :
    m ≤ (l.map (fun q => w q * z q)).sum / (l.map w).sum := by
  have hden : 0 < (l.map w).sum := by
    apply List.sum_pos
    · intro x hx
      rcases List.mem_map.mp hx with ⟨q, hq, rfl⟩
      exact hw q hq
    · simpa using hl
  rw [le_div_iff₀ hden]
  calc m * (l.map w).sum
      = (l.map (fun q => w q * m)).sum := by
        rw [List.sum_map_mul_right]
        exact mul_comm _ _
    _ ≤ (l.map (fun q => w q * z q)).sum := by
        apply List.sum_le_sum
        intro q hq
        exact mul_le_mul_of_nonneg_left (hz q hq) (hw q hq).le

/-- C9: without the geostatistics provider the registry holds exactly the
base identifier set (IDW, linear, cubic, nearest and the four RBF kernels, in
construction order); with it, exactly the base set followed by the two
kriging identifiers.  The registry is a pure function of the availability
flag, so it cannot change after initialization. -/
theorem C9_registry_identifiers (krigingAvailable : Bool) :
    (METHODS krigingAvailable).map Prod.fst =
      specBaseIdentifiers ++
        (if krigingAvailable then specKrigingIdentifiers else []) := by
  cases krigingAvailable <;> rfl

/-- C8 (amended): an identifier missing from the registry fails with a
configuration error naming the identifier and carrying the list of valid
identifiers; but out-of-domain numeric parameters are NOT validated — any
power `p`, including non-positive values, is accepted and stored verbatim. -/
theorem C8_config_error_amended (krigingAvailable : Bool) (m : String)
    (power smoothing : Option ℝ) (vg : Option String) (rs : Option ℝ) (p : ℝ) :
    (m ∉ (METHODS krigingAvailable).map Prod.fst →
      engineInit krigingAvailable m power smoothing vg rs =
        .error (.unknownMethod m ((METHODS krigingAvailable).map Prod.fst))) ∧
    engineInit false "idw" (some p) smoothing vg rs =
      .ok { method := "idw", power := p, smoothing := smoothing.getD 0.0,
            variogram_model := vg.getD "gaussian", rbf_smooth := rs.getD 0 } := by
  constructor
  · intro h
    unfold engineInit
    rw [if_pos h]
  · unfold engineInit
    rw [if_neg (by decide), if_neg (by decide)]
    rfl

/-- C8 counterexample: constructing an IDW engine with the out-of-domain
power `-1` succeeds, where the claim requires a configuration error. -/
theorem C8_counterexample :
    (engineInit false "idw" (some (-1)) none none none).isOk = true := by
  rfl

/-- C4: with no explicit bounds the grid bounds are the sample bounding box
expanded by 0.05 of each axis extent on both sides; explicit bounds are used
verbatim with zero padding. -/
theorem C4_grid_bounds (x y : List ℝ) (mx Mx my My : ℝ)
    (hmx : IsLeast {r : ℝ | r ∈ x} mx) (hMx : IsGreatest {r : ℝ | r ∈ x} Mx)
    (hmy : IsLeast {r : ℝ | r ∈ y} my) (hMy : IsGreatest {r : ℝ | r ∈ y} My)
    (eb : ℝ × ℝ × ℝ × ℝ) :
    computeBounds x y none =
      (mx - 0.05 * (Mx - mx), Mx + 0.05 * (Mx - mx),
       my - 0.05 * (My - my), My + 0.05 * (My - my)) ∧
    computeBounds x y (some eb) = (eb.1, eb.2.2.1, eb.2.1, eb.2.2.2) := by
  obtain ⟨a, b, c, d⟩ := eb
  constructor
  · simp only [computeBounds]
    rw [listMin_eq_of_isLeast x mx hmx, listMax_eq_of_isGreatest x Mx hMx,
      listMin_eq_of_isLeast y my hmy, listMax_eq_of_isGreatest y My hMy]
    simp only [Prod.mk.injEq]
    refine ⟨by ring, by ring, by ring, by ring⟩
  · rfl

/-- C4 witness: the spec's scenario — samples spanning x in [-95,-94] and
y in [29.5,30.5] give padded bounds [-95.05,-93.95] x [29.45,30.55], and an
explicit bounds tuple is returned verbatim. -/
theorem C4_witness :
    computeBounds [(-95 : ℝ), -94] [(29.5 : ℝ), 30.5] none =
      (-95.05, -93.95, 29.45, 30.55) ∧
    computeBounds [(-95 : ℝ), -94] [(29.5 : ℝ), 30.5] (some (0, 1, 2, 3)) =
      (0, 2, 1, 3) := by
  have h := C4_grid_bounds [(-95 : ℝ), -94] [(29.5 : ℝ), 30.5]
    (-95) (-94) 29.5 30.5
    (by constructor
        · simp
        · intro r hr
          rcases List.mem_cons.mp hr with rfl | hr
          · norm_num
          · rcases List.mem_singleton.mp hr with rfl
            norm_num)
    (by constructor
        · simp
        · intro r hr
          rcases List.mem_cons.mp hr with rfl | hr
          · norm_num
          · rcases List.mem_singleton.mp hr with rfl
            norm_num)
    (by constructor
        · simp
        · intro r hr
          rcases List.mem_cons.mp hr with rfl | hr
          · norm_num
          · rcases List.mem_singleton.mp hr with rfl
            norm_num)
    (by constructor
        · simp
        · intro r hr
          rcases List.mem_cons.mp hr with rfl | hr
          · norm_num
          · rcases List.mem_singleton.mp hr with rfl
            norm_num)
    (0, 1, 2, 3)
  norm_num at h
  norm_num
  exact h

/-- C6 (amended): cleaning removes a row exactly when one of its three
entries is NaN — infinite entries are NOT removed.  Cleaning is an in-order
sublist selection, after it no surviving entry is NaN in any coordinate, and
`interpolate` depends on its input only through the cleaned rows (and the raw
length used by the early size check). -/
theorem C6_cleaning_amended (xyz : List (FVal × FVal × FVal))
    (t : FVal × FVal × FVal) :
    (cleanSamples xyz).Sublist xyz ∧
    (t ∈ cleanSamples xyz ↔
      t ∈ xyz ∧ t.1.isnan = false ∧ t.2.1.isnan = false ∧ t.2.2.isnan = false) ∧
    (∀ u ∈ cleanSamples xyz,
      u.1.isnan = false ∧ u.2.1.isnan = false ∧ u.2.2.isnan = false) ∧
    (∀ (xyz' : List (FVal × FVal × FVal)) (e : InterpolationEngine) (res : ℕ)
      (b : Option (ℝ × ℝ × ℝ × ℝ))
      (ki : List (ℝ × ℝ × ℝ) → List ℝ → List ℝ → List (List ℝ))
      (ro : Option (List (List ℝ)))
      (gi : String → List (ℝ × ℝ × ℝ) → List ℝ → List ℝ → List (List ℝ)),
      cleanSamples xyz' = cleanSamples xyz → xyz'.length = xyz.length →
      interpolate e xyz' res b ki ro gi = interpolate e xyz res b ki ro gi) := by
  refine ⟨List.filter_sublist _, ?_, ?_, ?_⟩
  · simp [cleanSamples, List.mem_filter, and_assoc]
  · intro u hu
    have := (List.mem_filter.mp hu).2
    simpa [and_assoc] using this
  · intro xyz' e res b ki ro gi hclean hlen
    simp only [interpolate, hclean, hlen]

/-- C6 counterexample: a row whose x-entry is infinite is kept by the code's
cleaning (which tests only `np.isnan`), while the claim requires it removed;
the spec-side cleaning drops it. -/
theorem C6_counterexample :
    cleanSamples [(FVal.inf, FVal.fin 0, FVal.fin 1)] =
      [(FVal.inf, FVal.fin 0, FVal.fin 1)] ∧
    specCleanSamples [(FVal.inf, FVal.fin 0, FVal.fin 1)] = [] :=
  ⟨rfl, rfl⟩

/-- C3 (amended): `interpolate` fails with the insufficient-data error exactly
when the RAW input has fewer than 3 rows — the check precedes NaN filtering,
so an input of 3 rows whose usable count drops below 3 only because of NaN
entries proceeds instead of failing.  A 2-point sample set does fail with the
insufficient-data error. -/
theorem C3_insufficient_data_amended (e : InterpolationEngine)
    (xyz : List (FVal × FVal × FVal)) (res : ℕ) (b : Option (ℝ × ℝ × ℝ × ℝ))
    (ki : List (ℝ × ℝ × ℝ) → List ℝ → List ℝ → List (List ℝ))
    (ro : Option (List (List ℝ)))
    (gi : String → List (ℝ × ℝ × ℝ) → List ℝ → List ℝ → List (List ℝ)) :
    (interpolate e xyz res b ki ro gi = .error .insufficientData ↔
      xyz.length < 3) ∧
    (xyz.length = 2 → interpolate e xyz res b ki ro gi =
      .error .insufficientData) := by
  have hmain : (interpolate e xyz res b ki ro gi =
      Except.error EngineError.insufficientData) ↔ xyz.length < 3 := by
    by_cases hlen : xyz.length < 3
    · simp [interpolate, hlen]
    · simp only [interpolate, if_neg hlen]
      constructor
      · intro h
        split_ifs at h
        all_goals simp_all
      · intro h
        exact absurd h hlen
  exact ⟨hmain, fun h2 => hmain.mpr (by omega)⟩

/-- C3 counterexample: a 3-row input with one NaN row has only 2 usable
points after filtering, yet `interpolate` succeeds instead of failing with
the insufficient-data error the claim requires. -/
theorem C3_counterexample :
    (interpolate ⟨"idw", 2.0, 0.0, "gaussian", 0⟩
      [(FVal.fin 0, FVal.fin 0, FVal.fin 1), (FVal.fin 1, FVal.fin 0, FVal.fin 2),
       (FVal.nan, FVal.fin 0, FVal.fin 3)] 4 none
      (fun _ _ _ => []) none (fun _ _ _ _ => [])).isOk = true := by
  rfl

/-- C7 (amended): every successful `interpolate` call returns axis sequences
of length exactly `grid_resolution`; each axis is a `linspace` over the
computed bounds and is strictly increasing whenever that axis's computed
range has positive width (for resolution at least 2).  With a degenerate
range — all samples sharing a coordinate, or explicit bounds of zero width —
the axis is constant, not strictly increasing. -/
theorem C7_grid_axes_amended (e : InterpolationEngine)
    (xyz : List (FVal × FVal × FVal)) (res : ℕ) (b : Option (ℝ × ℝ × ℝ × ℝ))
    (ki : List (ℝ × ℝ × ℝ) → List ℝ → List ℝ → List (List ℝ))
    (ro : Option (List (List ℝ)))
    (gi : String → List (ℝ × ℝ × ℝ) → List ℝ → List ℝ → List (List ℝ))
    (xi yi : List ℝ) (ZI : List (List ℝ)) (hres : 2 ≤ res)
    (h : interpolate e xyz res b ki ro gi = .ok (xi, yi, ZI)) :
    xi.length = res ∧ yi.length = res ∧
    ∃ lo1 hi1 lo2 hi2 : ℝ,
      xi = linspace lo1 hi1 res ∧ yi = linspace lo2 hi2 res ∧
      (lo1 < hi1 → List.Pairwise (· < ·) xi) ∧
      (lo2 < hi2 → List.Pairwise (· < ·) yi) := by
  simp only [interpolate] at h
  split_ifs at h
  all_goals
    simp only [Except.ok.injEq, Prod.mk.injEq] at h
  all_goals
    obtain ⟨hxi, hyi, _⟩ := h
  all_goals
    subst hxi
  all_goals
    subst hyi
  all_goals
    exact ⟨linspace_length _ _ _, linspace_length _ _ _,
      _, _, _, _, rfl, rfl,
      fun hlt => linspace_sorted _ _ _ hres hlt,
      fun hlt => linspace_sorted _ _ _ hres hlt⟩

/-- C7 witness: an explicit-bounds IDW call at resolution 2 on bounds of
positive width; both axes have length 2 and are strictly increasing. -/
theorem C7_witness :
    (linspace (0 : ℝ) 1 2).length = 2 ∧ (linspace (0 : ℝ) 1 2).length = 2 ∧
    ∃ lo1 hi1 lo2 hi2 : ℝ,
      linspace (0 : ℝ) 1 2 = linspace lo1 hi1 2 ∧
      linspace (0 : ℝ) 1 2 = linspace lo2 hi2 2 ∧
      (lo1 < hi1 → List.Pairwise (· < ·) (linspace (0 : ℝ) 1 2)) ∧
      (lo2 < hi2 → List.Pairwise (· < ·) (linspace (0 : ℝ) 1 2)) :=
  C7_grid_axes_amended ⟨"idw", 2.0, 0.0, "gaussian", 0⟩
    [(FVal.fin 0, FVal.fin 0, FVal.fin 1), (FVal.fin 1, FVal.fin 0, FVal.fin 2),
     (FVal.fin 0, FVal.fin 1, FVal.fin 3)]
    2 (some (0, 0, 1, 1)) (fun _ _ _ => []) none (fun _ _ _ _ => [])
    (linspace 0 1 2) (linspace 0 1 2)
    (idwGrid 2.0 0.0
      [((0 : ℝ), (0 : ℝ), (1 : ℝ)), ((1 : ℝ), (0 : ℝ), (2 : ℝ)),
       ((0 : ℝ), (1 : ℝ), (3 : ℝ))]
      (linspace 0 1 2) (linspace 0 1 2))
    (by norm_num) rfl

/-- C7 counterexample: three samples sharing x = 0 give a zero-width padded
x-range, so the returned xi is the constant sequence `linspace 0 0 3`, which
is not strictly increasing — refuting the claim's unconditional strict
monotonicity. -/
theorem C7_counterexample :
    ((interpolate ⟨"idw", 2.0, 0.0, "gaussian", 0⟩
        [(FVal.fin 0, FVal.fin 0, FVal.fin 1), (FVal.fin 0, FVal.fin 1, FVal.fin 2),
         (FVal.fin 0, FVal.fin 2, FVal.fin 3)] 3 none
        (fun _ _ _ => []) none (fun _ _ _ _ => [])).toOption.map
      (fun t => t.1) = some (linspace 0 0 3)) ∧
    ¬ List.Pairwise (· < ·) (linspace (0 : ℝ) 0 3) := by
  constructor
  · simp only [interpolate]
    rw [if_neg (by norm_num)]
    simp [cleanSamples, FVal.isnan, FVal.toReal, computeBounds, listMin, listMax,
      Except.toOption]
  · have h3 : linspace (0 : ℝ) 0 3 = [0, 0, 0] := by
      simp [linspace, List.range_succ]
    rw [h3]
    intro h
    have := List.rel_of_pairwise_cons h (List.mem_cons_self _ _)
    exact lt_irrefl _ this

/-- C5 (amended): the masked grid has the shape of its inputs and, cell by
cell, keeps the original value exactly when the minimum distance to the
samples is strictly below the threshold, and holds the sentinel otherwise —
so a cell at distance exactly equal to the threshold is masked, not kept as
the claim states.  The function is pure: it builds a new grid from its
arguments. -/
theorem C5_mask_amended (XI YI : List (List ℝ)) (ZI : List (List (Option ℝ)))
    (sp : List (ℝ × ℝ)) (t : ℝ)
    (hY : YI.length = XI.length) (hZ : ZI.length = XI.length)
    (i j : ℕ) (hi : i < XI.length) (hj : j < (XI.getD i []).length)
    (hrY : (YI.getD i []).length = (XI.getD i []).length)
    (hrZ : (ZI.getD i []).length = (XI.getD i []).length) :
    (mask_extrapolation_regions XI YI ZI sp t).length = XI.length ∧
    ((mask_extrapolation_regions XI YI ZI sp t).getD i []).length =
      (XI.getD i []).length ∧
    ((mask_extrapolation_regions XI YI ZI sp t).getD i []).getD j none =
      (if minSampleDistance sp ((XI.getD i []).getD j 0)
          ((YI.getD i []).getD j 0) < t
       then (ZI.getD i []).getD j none else none) := by
  have hiY : i < YI.length := by rw [hY]; exact hi
  have hiZ : i < ZI.length := by rw [hZ]; exact hi
  have hgX : XI.getD i [] = XI[i] := List.getD_eq_getElem XI [] hi
  have hgY : YI.getD i [] = YI[i] := List.getD_eq_getElem YI [] hiY
  have hgZ : ZI.getD i [] = ZI[i] := List.getD_eq_getElem ZI [] hiZ
  have hrY' : (YI[i]).length = (XI[i]).length := by rw [← hgY, ← hgX]; exact hrY
  have hrZ' : (ZI[i]).length = (XI[i]).length := by rw [← hgZ, ← hgX]; exact hrZ
  have hjX : j < (XI[i]).length := by rw [← hgX]; exact hj
  have hjY : j < (YI[i]).length := by rw [hrY']; exact hjX
  have hjZ : j < (ZI[i]).length := by rw [hrZ']; exact hjX
  have hlen : (mask_extrapolation_regions XI YI ZI sp t).length = XI.length := by
    simp [mask_extrapolation_regions, List.length_zipWith, List.length_zip, hY, hZ]
  have hi' : i < (mask_extrapolation_regions XI YI ZI sp t).length := by
    rw [hlen]; exact hi
  have hrow : (mask_extrapolation_regions XI YI ZI sp t).getD i [] =
      List.zipWith
        (fun gxy z => if minSampleDistance sp gxy.1 gxy.2 < t then z else none)
        ((XI[i]).zip (YI[i])) (ZI[i]) := by
    rw [List.getD_eq_getElem _ _ hi']
    simp only [mask_extrapolation_regions]
    rw [List.getElem_zipWith, List.getElem_zip]
  have hjzip : j <
      (List.zipWith
        (fun gxy z => if minSampleDistance sp gxy.1 gxy.2 < t then z else none)
        ((XI[i]).zip (YI[i])) (ZI[i])).length := by
    simp [List.length_zipWith, List.length_zip, hrY', hrZ']
    exact hjX
  refine ⟨hlen, ?_, ?_⟩
  · rw [hrow, hgX]
    simp [List.length_zipWith, List.length_zip, hrY', hrZ']
  · rw [hrow, List.getD_eq_getElem _ _ hjzip, List.getElem_zipWith, List.getElem_zip,
      hgX, hgY, hgZ, List.getD_eq_getElem _ _ hjX, List.getD_eq_getElem _ _ hjY,
      List.getD_eq_getElem _ _ hjZ]

/-- C5 witness: a 1-by-1 grid whose only cell is at distance 0 from the one
sample with threshold 1; the shape is preserved and the cell keeps its
value. -/
theorem C5_witness :
    (mask_extrapolation_regions [[(0 : ℝ)]] [[(0 : ℝ)]] [[some (5 : ℝ)]]
      [((0 : ℝ), (0 : ℝ))] 1).length = [[(0 : ℝ)]].length ∧
    ((mask_extrapolation_regions [[(0 : ℝ)]] [[(0 : ℝ)]] [[some (5 : ℝ)]]
      [((0 : ℝ), (0 : ℝ))] 1).getD 0 []).length =
      ([[(0 : ℝ)]].getD 0 []).length ∧
    ((mask_extrapolation_regions [[(0 : ℝ)]] [[(0 : ℝ)]] [[some (5 : ℝ)]]
      [((0 : ℝ), (0 : ℝ))] 1).getD 0 []).getD 0 none =
      (if minSampleDistance [((0 : ℝ), (0 : ℝ))] (([[(0 : ℝ)]].getD 0 []).getD 0 0)
          (([[(0 : ℝ)]].getD 0 []).getD 0 0) < 1
       then ([[some (5 : ℝ)]].getD 0 []).getD 0 none else none) :=
  C5_mask_amended [[(0 : ℝ)]] [[(0 : ℝ)]] [[some (5 : ℝ)]] [((0 : ℝ), (0 : ℝ))] 1
    rfl rfl 0 0 (by decide) (by decide) rfl rfl

/-- C5 counterexample: a cell at distance exactly equal to the threshold is
replaced by the sentinel by the code (`<` comparison), while the claim —
sentinel only when the distance EXCEEDS the threshold — keeps the value. -/
theorem C5_counterexample :
    mask_extrapolation_regions [[(1 : ℝ)]] [[(0 : ℝ)]] [[some (42 : ℝ)]]
      [((0 : ℝ), (0 : ℝ))] 1 = [[none]] ∧
    specMask [[(1 : ℝ)]] [[(0 : ℝ)]] [[some (42 : ℝ)]]
      [((0 : ℝ), (0 : ℝ))] 1 = [[some (42 : ℝ)]] := by
  have hd : minSampleDistance [(0 : ℝ × ℝ)] 1 0 = 1 := by
    simp [minSampleDistance, listMin]
  constructor
  · simp [mask_extrapolation_regions, hd]
  · simp [specMask, hd]

/-- Branch lemma: when some (smoothed) distance is below the 1e-10 threshold,
`_idw` returns the z-value at the first index of minimal distance. -/
theorem idwCell_coincident (power smoothing : ℝ) (samples : List (ℝ × ℝ × ℝ))
    (gx gy : ℝ)
    (hco : ∃ d ∈ samples.map (sampleDistance smoothing gx gy), d < 1e-10) :
    idwCell power smoothing samples gx gy =
      (samples.map (fun q => q.2.2)).getD
        (argmin (samples.map (sampleDistance smoothing gx gy))) 0 := by
  simp only [idwCell]
  rw [if_pos hco]

/-- Branch lemma: when no (smoothed) distance is below the 1e-10 threshold,
`_idw` returns the inverse-distance-power weighted average. -/
theorem idwCell_weighted (power smoothing : ℝ) (samples : List (ℝ × ℝ × ℝ))
    (gx gy : ℝ)
    (hco : ¬ ∃ d ∈ samples.map (sampleDistance smoothing gx gy), d < 1e-10) :
    idwCell power smoothing samples gx gy =
      (List.zipWith (fun w z => w * z)
        ((samples.map (sampleDistance smoothing gx gy)).map (fun d => 1.0 / d ^ power))
        (samples.map (fun q => q.2.2))).sum /
      ((samples.map (sampleDistance smoothing gx gy)).map (fun d => 1.0 / d ^ power)).sum := by
  simp only [idwCell]
  rw [if_neg hco]

/-- C1: the per-cell IDW estimate is exactly the spec's formula — the value
of the nearest coincident sample (first by index under ties) when some
smoothed distance is below 1e-10, else the weighted average
Σ(z_k d_k^-p)/Σ(d_k^-p) — and in particular a cell whose (smoothed) distance
to a unique sample is below 1e-10 reproduces that sample's value exactly,
independently of the power. -/
theorem C1_idw_formula (samples : List (ℝ × ℝ × ℝ)) (power smoothing gx gy : ℝ)
    (hcard : 3 ≤ samples.length) :
    idwCell power smoothing samples gx gy =
      specIdwEstimate power smoothing samples gx gy ∧
    (∀ k, k < samples.length →
      (samples.map (sampleDistance smoothing gx gy)).getD k 0 < 1e-10 →
      (∀ j, j < samples.length → j ≠ k →
        ¬ (samples.map (sampleDistance smoothing gx gy)).getD j 0 < 1e-10) →
      idwCell power smoothing samples gx gy =
        (samples.map (fun q => q.2.2)).getD k 0) := by
  have hlen : (samples.map (sampleDistance smoothing gx gy)).length = samples.length :=
    List.length_map _ _
  constructor
  · by_cases hco : ∃ d ∈ samples.map (sampleDistance smoothing gx gy), d < 1e-10
    · obtain ⟨d0, hd0, hd0lt⟩ := hco
      have hne : samples.map (sampleDistance smoothing gx gy) ≠ [] :=
        List.ne_nil_of_mem hd0
      have hmin_lt : listMin (samples.map (sampleDistance smoothing gx gy)) < 1e-10 :=
        lt_of_le_of_lt (listMin_le_mem _ d0 hd0) hd0lt
      have hpred : ∀ x ∈ samples.map (sampleDistance smoothing gx gy),
          (decide (x < 1e-10 ∧
            ∀ d' ∈ samples.map (sampleDistance smoothing gx gy), x ≤ d') : Bool) =
          decide (x ≤ listMin (samples.map (sampleDistance smoothing gx gy))) := by
        intro x hx
        apply decide_eq_decide.mpr
        constructor
        · rintro ⟨_, hall⟩
          exact hall _ (listMin_mem _ hne)
        · intro hxle
          exact ⟨lt_of_le_of_lt hxle hmin_lt,
            fun d' hd' => le_trans hxle (listMin_le_mem _ d' hd')⟩
      rw [idwCell_coincident power smoothing samples gx gy ⟨d0, hd0, hd0lt⟩]
      simp only [specIdwEstimate]
      rw [if_pos ⟨d0, hd0, hd0lt⟩]
      rw [findIdx_congr _ _ _ hpred, findIdx_le_listMin _ hne]
    · rw [idwCell_weighted power smoothing samples gx gy hco]
      simp only [specIdwEstimate]
      rw [if_neg hco]
      push_neg at hco
      have hall : ∀ d ∈ samples.map (sampleDistance smoothing gx gy), 1e-10 ≤ d := hco
      have hpoint : ∀ d ∈ samples.map (sampleDistance smoothing gx gy),
          (fun d => 1.0 / d ^ power) d = d ^ (-power) := by
        intro d hd
        have hd0 : (0 : ℝ) ≤ d := le_trans (by norm_num) (hall d hd)
        rw [Real.rpow_neg hd0]
        show 1.0 / d ^ power = (d ^ power)⁻¹
        norm_num
      rw [List.zipWith_map_left]
      rw [zipWith_congr_left
        (fun a b => (fun d => 1.0 / d ^ power) a * b)
        (fun d z => z * d ^ (-power)) _ _
        (fun d hd z => by
          show (1.0 / d ^ power) * z = z * d ^ (-power)
          rw [Real.rpow_neg (le_trans (by norm_num) (hall d hd))]
          have h1 : (1.0 : ℝ) = 1 := by norm_num
          rw [h1, one_div]
          ring)]
      rw [map_congr_mem _ _ _ hpoint]
  · intro k hk hdk hunique
    have hk' : k < (samples.map (sampleDistance smoothing gx gy)).length := by
      rw [hlen]; exact hk
    have hgd : (samples.map (sampleDistance smoothing gx gy)).getD k 0 =
        (samples.map (sampleDistance smoothing gx gy))[k] :=
      List.getD_eq_getElem _ 0 hk'
    have hmem : (samples.map (sampleDistance smoothing gx gy)).getD k 0 ∈
        samples.map (sampleDistance smoothing gx gy) := by
      rw [hgd]
      exact List.getElem_mem hk'
    have hne : samples.map (sampleDistance smoothing gx gy) ≠ [] :=
      List.ne_nil_of_mem hmem
    have ha_lt : argmin (samples.map (sampleDistance smoothing gx gy)) <
        (samples.map (sampleDistance smoothing gx gy)).length :=
      argmin_lt_length _ hne
    have hval : (samples.map (sampleDistance smoothing gx gy)).getD
        (argmin (samples.map (sampleDistance smoothing gx gy))) 0 =
        listMin (samples.map (sampleDistance smoothing gx gy)) :=
      getD_argmin _ hne
    have hargk : argmin (samples.map (sampleDistance smoothing gx gy)) = k := by
      by_contra hne_k
      refine hunique (argmin (samples.map (sampleDistance smoothing gx gy)))
        (by rw [← hlen]; exact ha_lt) hne_k ?_
      rw [hval]
      exact lt_of_le_of_lt (listMin_le_mem _ _ hmem) hdk
    rw [idwCell_coincident power smoothing samples gx gy
      ⟨(samples.map (sampleDistance smoothing gx gy)).getD k 0, hmem, hdk⟩, hargk]

/-- C1 witness: the formula equivalence and the exact-reproduction corollary
instantiated at the spec's three-sample scenario with power 2, smoothing 0,
at the grid point (5, 7). -/
theorem C1_witness :
    idwCell 2 0
      [((0 : ℝ), (0 : ℝ), (1 : ℝ)), ((1 : ℝ), (0 : ℝ), (2 : ℝ)),
       ((0 : ℝ), (1 : ℝ), (3 : ℝ))] 5 7 =
      specIdwEstimate 2 0
        [((0 : ℝ), (0 : ℝ), (1 : ℝ)), ((1 : ℝ), (0 : ℝ), (2 : ℝ)),
         ((0 : ℝ), (1 : ℝ), (3 : ℝ))] 5 7 ∧
    (∀ k, k < List.length
        [((0 : ℝ), (0 : ℝ), (1 : ℝ)), ((1 : ℝ), (0 : ℝ), (2 : ℝ)),
         ((0 : ℝ), (1 : ℝ), (3 : ℝ))] →
      (List.map (sampleDistance 0 5 7)
        [((0 : ℝ), (0 : ℝ), (1 : ℝ)), ((1 : ℝ), (0 : ℝ), (2 : ℝ)),
         ((0 : ℝ), (1 : ℝ), (3 : ℝ))]).getD k 0 < 1e-10 →
      (∀ j, j < List.length
          [((0 : ℝ), (0 : ℝ), (1 : ℝ)), ((1 : ℝ), (0 : ℝ), (2 : ℝ)),
           ((0 : ℝ), (1 : ℝ), (3 : ℝ))] → j ≠ k →
        ¬ (List.map (sampleDistance 0 5 7)
          [((0 : ℝ), (0 : ℝ), (1 : ℝ)), ((1 : ℝ), (0 : ℝ), (2 : ℝ)),
           ((0 : ℝ), (1 : ℝ), (3 : ℝ))]).getD j 0 < 1e-10) →
      idwCell 2 0
        [((0 : ℝ), (0 : ℝ), (1 : ℝ)), ((1 : ℝ), (0 : ℝ), (2 : ℝ)),
         ((0 : ℝ), (1 : ℝ), (3 : ℝ))] 5 7 =
        (List.map (fun q => q.2.2)
          [((0 : ℝ), (0 : ℝ), (1 : ℝ)), ((1 : ℝ), (0 : ℝ), (2 : ℝ)),
           ((0 : ℝ), (1 : ℝ), (3 : ℝ))]).getD k 0) :=
  C1_idw_formula
    [((0 : ℝ), (0 : ℝ), (1 : ℝ)), ((1 : ℝ), (0 : ℝ), (2 : ℝ)),
     ((0 : ℝ), (1 : ℝ), (3 : ℝ))] 2 0 5 7 (by decide)

/-- C10: every IDW cell estimate lies in the closed interval of the measured
values: the coincidence branch returns a sample value and the weighted branch
is a convex combination with strictly positive weights. -/
theorem C10_idw_range (samples : List (ℝ × ℝ × ℝ)) (power smoothing gx gy : ℝ)
    (hcard : 3 ≤ samples.length) (hp : 0 < power) (hs : 0 ≤ smoothing) :
    listMin (samples.map (fun q => q.2.2)) ≤ idwCell power smoothing samples gx gy ∧
    idwCell power smoothing samples gx gy ≤ listMax (samples.map (fun q => q.2.2)) := by
  have hne : samples ≠ [] := by
    intro h
    rw [h] at hcard
    simp at hcard
  by_cases hco : ∃ d ∈ samples.map (sampleDistance smoothing gx gy), d < 1e-10
  · rw [idwCell_coincident power smoothing samples gx gy hco]
    have hlen_z : (samples.map (fun q => q.2.2)).length = samples.length :=
      List.length_map _ _
    have hlen_d : (samples.map (sampleDistance smoothing gx gy)).length =
        samples.length := List.length_map _ _
    have hdne : samples.map (sampleDistance smoothing gx gy) ≠ [] := by
      intro h
      exact hne (List.map_eq_nil_iff.mp h)
    have halt : argmin (samples.map (sampleDistance smoothing gx gy)) <
        (samples.map (fun q => q.2.2)).length := by
      rw [hlen_z, ← hlen_d]
      exact argmin_lt_length _ hdne
    have hmem : (samples.map (fun q => q.2.2)).getD
        (argmin (samples.map (sampleDistance smoothing gx gy))) 0 ∈
        samples.map (fun q => q.2.2) := by
      rw [List.getD_eq_getElem _ 0 halt]
      exact List.getElem_mem halt
    exact ⟨listMin_le_mem _ _ hmem, le_listMax_mem _ _ hmem⟩
  · rw [idwCell_weighted power smoothing samples gx gy hco]
    push_neg at hco
    rw [List.zipWith_map_left, zipWith_map_fuse, List.map_map]
    have hwpos : ∀ q ∈ samples,
        0 < (fun q => 1.0 / (sampleDistance smoothing gx gy q) ^ power) q := by
      intro q hq
      have hd : 1e-10 ≤ sampleDistance smoothing gx gy q :=
        hco _ (List.mem_map_of_mem _ hq)
      have hdpos : 0 < sampleDistance smoothing gx gy q :=
        lt_of_lt_of_le (by norm_num) hd
      have hpow := Real.rpow_pos_of_pos hdpos power
      show 0 < 1.0 / (sampleDistance smoothing gx gy q) ^ power
      exact div_pos (by norm_num) hpow
    constructor
    · exact le_weighted_sum (fun q => 1.0 / (sampleDistance smoothing gx gy q) ^ power)
        (fun q => q.2.2) (listMin (samples.map (fun q => q.2.2))) samples hne hwpos
        (fun q hq => listMin_le_mem _ _ (List.mem_map_of_mem _ hq))
    · exact weighted_sum_le (fun q => 1.0 / (sampleDistance smoothing gx gy q) ^ power)
        (fun q => q.2.2) (listMax (samples.map (fun q => q.2.2))) samples hne hwpos
        (fun q hq => le_listMax_mem _ _ (List.mem_map_of_mem _ hq))

/-- C10 witness: the range bound instantiated at a concrete three-sample set
with power 2, smoothing 0, at the grid point (5, 7). -/
theorem C10_witness :
    listMin (List.map (fun q => q.2.2)
      [((0 : ℝ), (0 : ℝ), (1 : ℝ)), ((1 : ℝ), (0 : ℝ), (2 : ℝ)),
       ((0 : ℝ), (1 : ℝ), (3 : ℝ))]) ≤
      idwCell 2 0
        [((0 : ℝ), (0 : ℝ), (1 : ℝ)), ((1 : ℝ), (0 : ℝ), (2 : ℝ)),
         ((0 : ℝ), (1 : ℝ), (3 : ℝ))] 5 7 ∧
    idwCell 2 0
      [((0 : ℝ), (0 : ℝ), (1 : ℝ)), ((1 : ℝ), (0 : ℝ), (2 : ℝ)),
       ((0 : ℝ), (1 : ℝ), (3 : ℝ))] 5 7 ≤
      listMax (List.map (fun q => q.2.2)
        [((0 : ℝ), (0 : ℝ), (1 : ℝ)), ((1 : ℝ), (0 : ℝ), (2 : ℝ)),
         ((0 : ℝ), (1 : ℝ), (3 : ℝ))]) :=
  C10_idw_range
    [((0 : ℝ), (0 : ℝ), (1 : ℝ)), ((1 : ℝ), (0 : ℝ), (2 : ℝ)),
     ((0 : ℝ), (1 : ℝ), (3 : ℝ))] 2 0 5 7 (by decide) (by norm_num) le_rfl

/-- Distance evaluation used by the C2 counterexample: the duplicate sample
at the origin is at distance 1/4 from the probe point (1/4, 0). -/
theorem sampleDistance_cex_origin :
    sampleDistance 0.0 (1/4) 0 ((0 : ℝ), (0 : ℝ), (0 : ℝ)) = 1/4 := by
  simp only [sampleDistance]
  rw [show ((0 : ℝ) - 1/4) ^ 2 + ((0 : ℝ) - 0) ^ 2 = (1/4 : ℝ) ^ 2 by norm_num]
  rw [Real.sqrt_sq (by norm_num)]
  norm_num

/-- Distance evaluation used by the C2 counterexample: the sample at (1, 0)
is at distance 3/4 from the probe point (1/4, 0). -/
theorem sampleDistance_cex_far :
    sampleDistance 0.0 (1/4) 0 ((1 : ℝ), (0 : ℝ), (10 : ℝ)) = 3/4 := by
  simp only [sampleDistance]
  rw [show ((1 : ℝ) - 1/4) ^ 2 + ((0 : ℝ) - 0) ^ 2 = (3/4 : ℝ) ^ 2 by norm_num]
  rw [Real.sqrt_sq (by norm_num)]
  norm_num

/-- IDW cell value with the default power 2 on the C2 counterexample data. -/
theorem idwCell_cex_p2 :
    idwCell 2.0 0.0
      [((0 : ℝ), (0 : ℝ), (0 : ℝ)), ((0 : ℝ), (0 : ℝ), (0 : ℝ)),
       ((1 : ℝ), (0 : ℝ), (10 : ℝ))] (1/4) 0 = 10/19 := by
  have hr1 : ((1/4 : ℝ)) ^ (2.0 : ℝ) = 1/16 := by
    rw [show (2.0 : ℝ) = ((2 : ℕ) : ℝ) by norm_num, Real.rpow_natCast]
    norm_num
  have hr3 : ((3/4 : ℝ)) ^ (2.0 : ℝ) = 9/16 := by
    rw [show (2.0 : ℝ) = ((2 : ℕ) : ℝ) by norm_num, Real.rpow_natCast]
    norm_num
  simp only [idwCell, List.map, sampleDistance_cex_origin, sampleDistance_cex_far]
  rw [if_neg (by
    rintro ⟨d, hd, hlt⟩
    simp only [List.mem_cons, List.not_mem_nil, or_false] at hd
    rcases hd with rfl | rfl | rfl <;> norm_num at hlt)]
  simp only [List.zipWith, List.sum_cons, List.sum_nil, hr1, hr3]
  norm_num

/-- IDW cell value with the configured power 4 on the C2 counterexample
data. -/
theorem idwCell_cex_p4 :
    idwCell 4.0 0.0
      [((0 : ℝ), (0 : ℝ), (0 : ℝ)), ((0 : ℝ), (0 : ℝ), (0 : ℝ)),
       ((1 : ℝ), (0 : ℝ), (10 : ℝ))] (1/4) 0 = 10/163 := by
  have hr1 : ((1/4 : ℝ)) ^ (4.0 : ℝ) = 1/256 := by
    rw [show (4.0 : ℝ) = ((4 : ℕ) : ℝ) by norm_num, Real.rpow_natCast]
    norm_num
  have hr3 : ((3/4 : ℝ)) ^ (4.0 : ℝ) = 81/256 := by
    rw [show (4.0 : ℝ) = ((4 : ℕ) : ℝ) by norm_num, Real.rpow_natCast]
    norm_num
  simp only [idwCell, List.map, sampleDistance_cex_origin, sampleDistance_cex_far]
  rw [if_neg (by
    rintro ⟨d, hd, hlt⟩
    simp only [List.mem_cons, List.not_mem_nil, or_false] at hd
    rcases hd with rfl | rfl | rfl <;> norm_num at hlt)]
  simp only [List.zipWith, List.sum_cons, List.sum_nil, hr1, hr3]
  norm_num

/-- C2 (amended): when the RBF solve raises, the failure does not propagate —
exactly one warning is emitted and the result is the IDW grid computed with
the ENGINE'S configured power and smoothing (not the library defaults); these
coincide with the defaults (power 2, smoothing 0) exactly when the caller did
not override them at construction, as in the third conjunct. -/
theorem C2_rbf_fallback_amended (e : InterpolationEngine)
    (samples : List (ℝ × ℝ × ℝ)) (xi yi : List ℝ) (g : List (List ℝ))
    (kb : Bool) (m : String) (vg : Option String) (rs : Option ℝ) :
    rbfWithFallback e none samples xi yi =
      (idwGrid e.power e.smoothing samples xi yi, 1) ∧
    rbfWithFallback e (some g) samples xi yi = (g, 0) ∧
    (∀ e', engineInit kb m none none vg rs = .ok e' →
      rbfWithFallback e' none samples xi yi =
        (idwGrid 2.0 0.0 samples xi yi, 1)) := by
  refine ⟨rfl, rfl, ?_⟩
  intro e' he
  unfold engineInit at he
  split_ifs at he
  all_goals simp only [Except.ok.injEq] at he
  all_goals subst he
  all_goals rfl

/-- C2 counterexample: an RBF engine constructed with power 4 falls back, on
solve failure, to IDW with power 4 — not to IDW with default parameters: the
two grids differ at the probe point (1/4, 0). -/
theorem C2_counterexample :
    rbfWithFallback ⟨"rbf_multiquadric", 4.0, 0.0, "gaussian", 0⟩ none
      [((0 : ℝ), (0 : ℝ), (0 : ℝ)), ((0 : ℝ), (0 : ℝ), (0 : ℝ)),
       ((1 : ℝ), (0 : ℝ), (10 : ℝ))] [(1/4 : ℝ)] [(0 : ℝ)] ≠
    (idwGrid 2.0 0.0
      [((0 : ℝ), (0 : ℝ), (0 : ℝ)), ((0 : ℝ), (0 : ℝ), (0 : ℝ)),
       ((1 : ℝ), (0 : ℝ), (10 : ℝ))] [(1/4 : ℝ)] [(0 : ℝ)], 1) := by
  intro h
  have h1 : idwGrid 4.0 0.0
      [((0 : ℝ), (0 : ℝ), (0 : ℝ)), ((0 : ℝ), (0 : ℝ), (0 : ℝ)),
       ((1 : ℝ), (0 : ℝ), (10 : ℝ))] [(1/4 : ℝ)] [(0 : ℝ)] =
      idwGrid 2.0 0.0
      [((0 : ℝ), (0 : ℝ), (0 : ℝ)), ((0 : ℝ), (0 : ℝ), (0 : ℝ)),
       ((1 : ℝ), (0 : ℝ), (10 : ℝ))] [(1/4 : ℝ)] [(0 : ℝ)] :=
    congrArg Prod.fst h
  have h2 : idwCell 4.0 0.0
      [((0 : ℝ), (0 : ℝ), (0 : ℝ)), ((0 : ℝ), (0 : ℝ), (0 : ℝ)),
       ((1 : ℝ), (0 : ℝ), (10 : ℝ))] (1/4) 0 =
      idwCell 2.0 0.0
      [((0 : ℝ), (0 : ℝ), (0 : ℝ)), ((0 : ℝ), (0 : ℝ), (0 : ℝ)),
       ((1 : ℝ), (0 : ℝ), (10 : ℝ))] (1/4) 0 := by
    have h3 := congrArg (fun grid => (grid.getD 0 []).getD 0 0) h1
    simpa [idwGrid] using h3
  rw [idwCell_cex_p2, idwCell_cex_p4] at h2
  norm_num at h2

end
